import Mathlib

/-!
Verification development for the youtube-likes-to-bandcamp matcher.

Shallow embedding of the match-and-score pipeline:
  - query_utils.py  : QueryNormalizer.dash_stripped, QueryNormalizer.sanitize_search_query
  - search.py       : BandcampSearch.search_track, score_match
  - main.py         : bandcamp_search, score_match, the per-item result loop
  - youtube_client.py : filter_by_channels

Python strings are modelled as Lean String (unicode codepoint lists); Python
floats produced by difflib ratios are modelled as Rat (all values appearing in
the claims are exactly representable).  HTTP fetching and HTML parsing are
external collaborators: a fetch is a parameter of type String -> Except String Soup,
where Soup records what BeautifulSoup selection would return (the first
li.searchresult element, its first anchor, its heading text and subhead text).
urllib.parse.urljoin is likewise passed as an uninterpreted function parameter.
-/

/-- The ASCII whitespace characters recognised by Python str.strip, str.split
and the regex class backslash-s (space, tab, newline, carriage return,
vertical tab, form feed).  Python additionally treats some rare unicode
spaces as whitespace; the claims only involve ASCII input. -/
def pySpace (c : Char) : Bool :=
  c == ' ' || c == '\t' || c == '\n' || c == '\r' || c == Char.ofNat 11 || c == Char.ofNat 12

/-- Drop leading whitespace (the leading half of Python str.strip). -/
def stripLead (l : List Char) : List Char := l.dropWhile pySpace

/-- Drop trailing whitespace (the trailing half of Python str.strip). -/
def stripTrail (l : List Char) : List Char := (l.reverse.dropWhile pySpace).reverse

/-- List-level model of Python str.strip (no arguments). -/
def pyStripL (l : List Char) : List Char := stripTrail (stripLead l)

/-- Model of Python str.strip on String. -/
def pyStrip (s : String) : String := ⟨pyStripL s.data⟩

/-- ASCII lower-casing of one character.  Models what Python str.casefold does
on the ASCII range; full unicode case folding agrees with this on every string
appearing in the claims, and the symbolic claims only use that casefold maps
equal strings to equal strings. -/
def lowerChar (c : Char) : Char :=
  if 65 ≤ c.toNat ∧ c.toNat ≤ 90 then Char.ofNat (c.toNat + 32) else c

/-- Model of Python str.casefold (ASCII range). -/
def casefold (s : String) : String := ⟨s.data.map lowerChar⟩

/-- Model of Python text.replace("-", " ").strip(), the body of
dash_stripped in main.py and youtube_client.py and of
QueryNormalizer.dash_stripped in query_utils.py. -/
def dash_stripped (s : String) : String :=
  pyStrip ⟨s.data.map (fun c => if c = '-' then ' ' else c)⟩

/-- UTF-8 encoding of one unicode codepoint, as a list of byte values.
Used to model urllib.parse.quote_plus, which percent-encodes UTF-8 bytes. -/
def utf8Bytes (c : Char) : List Nat :=
  let n := c.toNat
  if n < 128 then [n]
  else if n < 2048 then [192 + n / 64, 128 + n % 64]
  else if n < 65536 then [224 + n / 4096, 128 + (n / 64) % 64, 128 + n % 64]
  else [240 + n / 262144, 128 + (n / 4096) % 64, 128 + (n / 64) % 64, 128 + n % 64]

/-- Bytes left unescaped by urllib.parse.quote: ASCII letters, digits and
underscore, dot, hyphen, tilde. -/
def quoteSafe (b : Nat) : Bool :=
  (48 ≤ b && b ≤ 57) || (65 ≤ b && b ≤ 90) || (97 ≤ b && b ≤ 122) ||
  b == 95 || b == 46 || b == 45 || b == 126

/-- Upper-case hexadecimal digit, as used by urllib percent escapes. -/
def hexDigit (n : Nat) : Char :=
  if n < 10 then Char.ofNat (48 + n) else Char.ofNat (55 + n)

/-- quote_plus treatment of one UTF-8 byte: space becomes a plus sign, safe
bytes stand for themselves, everything else is percent-escaped. -/
def quoteByte (b : Nat) : List Char :=
  if b = 32 then ['+']
  else if quoteSafe b then [Char.ofNat b]
  else ['%', hexDigit (b / 16), hexDigit (b % 16)]

/-- Model of urllib.parse.quote_plus. -/
def quote_plus (s : String) : String :=
  ⟨(s.data.flatMap utf8Bytes).flatMap quoteByte⟩

/-- The Bandcamp search URL constructed by both search.py and main.py. -/
def searchUrl (query : String) : String :=
  "https://bandcamp.com/search?q=" ++ quote_plus query

/-- Length of the longest common prefix of two character lists, i.e. the
length of the matching run starting at a given pair of positions. -/
def runLen : List Char → List Char → Nat
  | a :: as, b :: bs => if a = b then runLen as bs + 1 else 0
  | _, _ => 0

/-- All position pairs (i, j) with i < n and j < m, in the row-major order in
which difflib.SequenceMatcher.find_longest_match scans candidate matches. -/
def allPairs (n m : Nat) : List (Nat × Nat) :=
  (List.range n).flatMap (fun i => (List.range m).map (fun j => (i, j)))

/-- One step of the longest-match scan: replace the current best block by the
block starting at p when the run there is strictly longer.  Scanning all
pairs in row-major order with strict improvement yields exactly the block
documented for find_longest_match: among maximal matching blocks, the one
starting earliest in a, and among those the one starting earliest in b. -/
def lcsStep (a b : List Char) (best : Nat × Nat × Nat) (p : Nat × Nat) : Nat × Nat × Nat :=
  let k := runLen (a.drop p.1) (b.drop p.2)
  if best.2.2 < k then (p.1, p.2, k) else best

/-- Model of difflib find_longest_match over the whole of both sequences,
for the configuration used by the program (isjunk = None).  The autojunk
popular-element heuristic only engages for sequences of length at least 200
and is immaterial to every claim (see the identical-string analysis at
ratio_self_eq_one); it is not modelled. -/
def bestOver (a b : List Char) : Nat × Nat × Nat :=
  (allPairs a.length b.length).foldl (lcsStep a b) (0, 0, 0)

/-- Total size of all matching blocks, as computed by
difflib get_matching_blocks: take the longest match, recurse on the parts to
its left and to its right.  Structured with explicit fuel so that the kernel
can evaluate it; fuel a.length + b.length always suffices because every
recursive call strictly shrinks the combined length. -/
def matchTotalF : Nat → List Char → List Char → Nat
  | 0, _, _ => 0
  | fuel + 1, a, b =>
    let best := bestOver a b
    if best.2.2 = 0 then 0
    else
      matchTotalF fuel (a.take best.1) (b.take best.2.1) + best.2.2 +
        matchTotalF fuel (a.drop (best.1 + best.2.2)) (b.drop (best.2.1 + best.2.2))

/-- Total matched characters between two sequences. -/
def matchTotal (a b : List Char) : Nat := matchTotalF (a.length + b.length) a b

/-- Model of difflib SequenceMatcher(None, a, b).ratio():
2 * M / (len a + len b), and 1.0 when both sequences are empty
(difflib _calculate_ratio). -/
def ratio (a b : List Char) : Rat :=
  if a.length + b.length = 0 then 1
  else ((2 * matchTotal a b : Nat) : Rat) / ((a.length + b.length : Nat) : Rat)

/-- Python truthiness of an optional string: None and the empty string are
falsy, everything else is truthy. -/
def pyTruthyStr : Option String → Bool
  | none => false
  | some s => !(s == "")

/-- Model of Python filter(None, opts) over a list of optional strings:
keeps exactly the truthy values. -/
def pyFilterTruthy (l : List (Option String)) : List String :=
  (l.filterMap id).filter (fun s => !(s == ""))

/-- Join a list of character-list words with single spaces
(Python " ".join). -/
def joinWords : List (List Char) → List Char
  | [] => []
  | [w] => w
  | w :: ws => w ++ ' ' :: joinWords ws

/-- Python " ".join over strings. -/
def stringJoinSpace (ws : List String) : String := ⟨joinWords (ws.map String.data)⟩

/-- Model of score_match in search.py:
returns 0.0 when both candidate fields are falsy, otherwise the
SequenceMatcher ratio of the casefolded source title against
" ".join(filter(None, [match_artist, match_title])).strip().casefold(). -/
def score_match (youtube_title : String) (match_title match_artist : Option String) : Rat :=
  if !(pyTruthyStr match_title) && !(pyTruthyStr match_artist) then 0
  else
    let base := casefold youtube_title
    let candidate := casefold (pyStrip (stringJoinSpace (pyFilterTruthy [match_artist, match_title])))
    ratio base.data candidate.data

/-- The first anchor element inside a search result, with its optional href
attribute (an anchor may lack href). -/
structure Link where
  href : Option String
deriving DecidableEq

/-- What search.py extracts from the first li.searchresult element:
its first anchor (select_one "a"), the stripped text of its .heading element
and of its .subhead element; each may be missing. -/
structure ResultElem where
  link : Option Link
  heading : Option String
  subhead : Option String
deriving DecidableEq

/-- The parsed response document, abstracted to the only selection the
program performs: select_one "li.searchresult". -/
structure Soup where
  firstSearchResult : Option ResultElem
deriving DecidableEq

/-- models.py SearchResult.  score defaults to 0.0 and error to None. -/
structure SearchResult where
  query : String
  search_url : String
  match_title : Option String := none
  match_artist : Option String := none
  match_url : Option String := none
  score : Rat := 0
  error : Option String := none
deriving DecidableEq

/-- Model of BandcampSearch.search_track in search.py.
httpGet stands for the guarded HTTP GET (client construction, the request,
raise_for_status and reading the body): an Except.error e is any exception
caught by the bare except clause, with e = str(exc); an Except.ok soup is the
parsed document.  urljoin stands for urllib.parse.urljoin.
On the found path, href is taken from the anchor only when the attribute is
present, and match_url falls back to the search URL whenever href is falsy
(absent or empty), exactly as the source conditional does. -/
def search_track (urljoin : String → String → String)
    (httpGet : String → Except String Soup) (query : String) : SearchResult :=
  let su := searchUrl query
  match httpGet su with
  | Except.error exc => { query := query, search_url := su, error := some exc }
  | Except.ok soup =>
    match soup.firstSearchResult with
    | none => { query := query, search_url := su }
    | some first =>
      let href := first.link.bind Link.href
      { query := query, search_url := su,
        match_title := first.heading,
        match_artist := first.subhead,
        match_url := some (match href with
          | some h => if h = "" then su else urljoin "https://bandcamp.com" h
          | none => su) }

/-- The match dict built by bandcamp_search in main.py: title and artist
default to the empty string when the element is missing, and url is always a
string (urljoin result, or the search url when the anchor or its href
attribute is missing). -/
structure BCMatch where
  title : String
  artist : String
  url : String
deriving DecidableEq

/-- The dict returned by bandcamp_search in main.py.  The failure dict is
ok = False with error set; success dicts are ok = True with no error key
(error = none) and an optional match. -/
structure BCResult where
  ok : Bool
  error : Option String
  found : Option BCMatch
  url : String
deriving DecidableEq

/-- Model of bandcamp_search in main.py.  Note the difference from
search.py: the href conditional only tests attribute presence (not
truthiness), and missing heading or subhead become empty strings. -/
def bandcamp_search (urljoin : String → String → String)
    (httpGet : String → Except String Soup) (query : String) : BCResult :=
  let url := searchUrl query
  match httpGet url with
  | Except.error exc => { ok := false, error := some exc, found := none, url := url }
  | Except.ok soup =>
    match soup.firstSearchResult with
    | none => { ok := true, error := none, found := none, url := url }
    | some first =>
      { ok := true, error := none, url := url,
        found := some
          { title := first.heading.getD ""
            artist := first.subhead.getD ""
            url := match first.link with
                   | some l =>
                     match l.href with
                     | some h => urljoin "https://bandcamp.com" h
                     | none => url
                   | none => url } }

/-- Model of score_match in main.py: 0.0 for a falsy match dict, otherwise
the ratio of the casefolded title against
(artist + " " + title).strip().casefold(). -/
def score_match_main (youtube_title : String) (bc : Option BCMatch) : Rat :=
  match bc with
  | none => 0
  | some m =>
    ratio (casefold youtube_title).data
      (casefold (pyStrip (m.artist ++ " " ++ m.title))).data

/-- One filtered liked-video item as consumed by the main loop:
title and uploader strings and an optional video url. -/
structure LikeItem where
  title : String
  uploader : String
  url : Option String
deriving DecidableEq

/-- One dict appended to results by the main loop. -/
structure RowOut where
  uploader : String
  bc_title : Option String
  score : Rat
  bc_url : String
  yt_url : Option String
deriving DecidableEq

/-- Model of one iteration of the Bandcamp loop in main.py: normalise the
title, search, then branch on error / no match / match, appending exactly one
results row.  The Bool component records whether the MATCH branch was taken,
i.e. the matched flag of the emitted row (models.MatchRow.matched in the
modular variant). -/
def processItem (urljoin : String → String → String)
    (httpGet : String → Except String Soup) (threshold : Rat)
    (item : LikeItem) : RowOut × Bool :=
  let raw_title := item.title
  let query := dash_stripped raw_title
  let result := bandcamp_search urljoin httpGet query
  if result.ok = false then
    ({ uploader := item.uploader, bc_title := none, score := 0,
       bc_url := result.url, yt_url := item.url }, false)
  else
    match result.found with
    | none =>
      ({ uploader := item.uploader, bc_title := none, score := 0,
         bc_url := result.url, yt_url := item.url }, false)
    | some m =>
      let score := score_match_main raw_title (some m)
      if threshold ≤ score then
        ({ uploader := item.uploader, bc_title := some m.title, score := score,
           bc_url := m.url, yt_url := item.url }, true)
      else
        ({ uploader := item.uploader, bc_title := some m.title, score := score,
           bc_url := m.url, yt_url := item.url }, false)

/-- The whole Bandcamp loop of main.py: start from an empty results list and
append one row per filtered item, in order. -/
def runPipeline (urljoin : String → String → String)
    (httpGet : String → Except String Soup) (threshold : Rat)
    (items : List LikeItem) : List RowOut :=
  items.foldl (fun results item => results ++ [(processItem urljoin httpGet threshold item).1]) []

/-- models.py YouTubeLike. -/
structure YouTubeLike where
  title : String
  uploader : String
  url : Option String
deriving DecidableEq

/-- Model of filter_by_channels in youtube_client.py (and the identical
filter in main.py): build the casefolded channel key set, then keep likes
whose uploader is truthy and whose casefolded uploader is a key. -/
def filter_by_channels (likes : List YouTubeLike) (channels : List String) : List YouTubeLike :=
  let candidates := channels.map casefold
  likes.filter (fun like =>
    decide (like.uploader ≠ "") && decide (casefold like.uploader ∈ candidates))

/-- Opening brackets of the first sanitize regex. -/
def isOpener (c : Char) : Bool := c == '(' || c == '[' || c == Char.ofNat 123

/-- Closing brackets of the first sanitize regex. -/
def isCloser (c : Char) : Bool := c == ')' || c == ']' || c == Char.ofNat 125

/-- Split a list after its first closing bracket of any type: some tail when
a closer exists, none otherwise. -/
def splitAtCloser : List Char → Option (List Char)
  | [] => none
  | c :: rest => if isCloser c then some rest else splitAtCloser rest

/-- Fueled scan modelling re.sub of the bracket pattern with a single space:
at an opening bracket, the match runs to the first closing bracket of any
type (the character class of the pattern excludes all three closers from the
content) and the whole match is replaced by one space, scanning resuming
after it; an opener with no closer ahead matches nothing and scanning moves
one character on.  Fuel equal to the list length always suffices since every
step consumes at least one character. -/
def bracketSub : Nat → List Char → List Char
  | 0, l => l
  | _, [] => []
  | fuel + 1, c :: rest =>
    if isOpener c then
      match splitAtCloser rest with
      | some tail => ' ' :: bracketSub fuel tail
      | none => c :: bracketSub fuel rest
    else c :: bracketSub fuel rest

/-- First step of sanitize_search_query: the bracket-fragment re.sub. -/
def sub_brackets (l : List Char) : List Char := bracketSub l.length l

/-- ASCII alphanumeric, the class 0-9A-Za-z of the second sanitize regex. -/
def isWordChar (c : Char) : Bool :=
  (48 ≤ c.toNat && c.toNat ≤ 57) || (65 ≤ c.toNat && c.toNat ≤ 90) ||
  (97 ≤ c.toNat && c.toNat ≤ 122)

/-- Second step of sanitize_search_query: re.sub replacing every character
that is neither alphanumeric nor whitespace by a single space.  The pattern
matches single characters, so the substitution is a character-wise map. -/
def noiseToSpace (l : List Char) : List Char :=
  l.map (fun c => if isWordChar c || pySpace c then c else ' ')

/-- Model of Python str.split() (no separator): maximal runs of
non-whitespace characters, with empty results dropped. -/
def pySplitL (l : List Char) : List (List Char) :=
  match h : l.dropWhile pySpace with
  | [] => []
  | c :: rest =>
    (c :: rest.takeWhile (fun d => !pySpace d)) :: pySplitL (rest.dropWhile (fun d => !pySpace d))
termination_by l.length
decreasing_by
  have h1 : (l.dropWhile pySpace).length ≤ l.length := (List.dropWhile_sublist pySpace).length_le
  rw [h] at h1
  have h2 : (rest.dropWhile (fun d => !pySpace d)).length ≤ rest.length :=
    (List.dropWhile_sublist _).length_le
  simp only [List.length_cons] at h1
  omega

/-- Model of QueryNormalizer.sanitize_search_query in query_utils.py:
bracket re.sub, noise re.sub, then " ".join(cleaned.split()).strip(). -/
def sanitize_search_query (s : String) : String :=
  ⟨pyStripL (joinWords (pySplitL (noiseToSpace (sub_brackets s.data))))⟩

/-- Collapse every maximal run of whitespace into one single space
(a direct rendering of the collapse wording of the spec). -/
def collapseRuns : List Char → List Char
  | [] => []
  | [c] => if pySpace c then [' '] else [c]
  | c :: d :: rest =>
    if pySpace c && pySpace d then collapseRuns (d :: rest)
    else (if pySpace c then ' ' else c) :: collapseRuns (d :: rest)

/-- The matching closer for each opener, for the pair reading of
"text enclosed in (), [], or \x7b\x7d". -/
def closerOf (c : Char) : Char :=
  if c = '(' then ')' else if c = '[' then ']' else Char.ofNat 125

/-- Split a list after the first occurrence of a given character. -/
def splitAtChar (target : Char) : List Char → Option (List Char)
  | [] => none
  | c :: rest => if c = target then some rest else splitAtChar target rest

/-- Fueled scan removing bracketed fragments under the literal reading of the
spec sentence: a fragment is an opening bracket through the first closing
bracket of the same type, and it is removed (deleted) together with its
delimiters; an opener with no matching closer stays. -/
def bracketRemove : Nat → List Char → List Char
  | 0, l => l
  | _, [] => []
  | fuel + 1, c :: rest =>
    if isOpener c then
      match splitAtChar (closerOf c) rest with
      | some tail => bracketRemove fuel tail
      | none => c :: bracketRemove fuel rest
    else c :: bracketRemove fuel rest

/-- The three-step reference definition of sanitize exactly as the spec words
it: first remove every bracketed fragment together with its delimiters, then
remove every character that is not alphanumeric or whitespace, then collapse
runs of whitespace to single spaces and trim. -/
def sanitizeReference (s : String) : String :=
  ⟨pyStripL (collapseRuns ((bracketRemove s.data.length s.data).filter
    (fun c => isWordChar c || pySpace c)))⟩

/-- The amended reference definition: as the spec words it, but with the two
removal steps corrected to replacement by a single space, and with a
bracketed fragment running from an opening bracket to the first closing
bracket of any type.  The final step, collapsing whitespace runs to single
spaces and trimming, is implemented directly as a run collapse, not through
the split-and-join of the source. -/
def sanitizeReferenceAmended (s : String) : String :=
  ⟨pyStripL (collapseRuns (noiseToSpace (sub_brackets s.data)))⟩

lemma runLen_self (l : List Char) : runLen l l = l.length := by
  induction l with
  | nil => rfl
  | cons c t ih => simp [runLen, ih]

lemma runLen_le_left (a : List Char) : ∀ b : List Char, runLen a b ≤ a.length := by
  induction a with
  | nil => intro b; cases b <;> simp [runLen]
  | cons c t ih =>
    intro b
    cases b with
    | nil => simp [runLen]
    | cons d u =>
      by_cases h : c = d
      · simpa [runLen, h] using ih u
      · simp [runLen, h]

lemma foldl_lcsStep_keep (a b : List Char) (best : Nat × Nat × Nat) :
    ∀ l : List (Nat × Nat),
      (∀ p ∈ l, runLen (a.drop p.1) (b.drop p.2) ≤ best.2.2) →
      l.foldl (lcsStep a b) best = best := by
  intro l
  induction l with
  | nil => intro _; rfl
  | cons p t ih =>
    intro h
    have hp : runLen (a.drop p.1) (b.drop p.2) ≤ best.2.2 := h p (by simp)
    have hstep : lcsStep a b best p = best := by
      simp only [lcsStep]
      rw [if_neg (by omega)]
    rw [List.foldl_cons, hstep]
    exact ih (fun q hq => h q (by simp [hq]))

lemma allPairs_head (n m : Nat) :
    ∃ L, allPairs (n + 1) (m + 1) = (0, 0) :: L := by
  simp only [allPairs, List.range_succ_eq_map, List.flatMap_cons, List.map_cons,
    List.cons_append]
  exact ⟨_, rfl⟩

lemma bestOver_self (x : List Char) (hx : x ≠ []) :
    bestOver x x = (0, 0, x.length) := by
  obtain ⟨c, t, rfl⟩ := List.exists_cons_of_ne_nil hx
  obtain ⟨L, hL⟩ := allPairs_head t.length t.length
  simp only [bestOver, List.length_cons, hL, List.foldl_cons]
  have hfirst : lcsStep (c :: t) (c :: t) (0, 0, 0) (0, 0) = (0, 0, t.length + 1) := by
    simp only [lcsStep, List.drop_zero]
    rw [runLen_self]
    simp
  rw [hfirst]
  apply foldl_lcsStep_keep
  intro p _
  calc runLen ((c :: t).drop p.1) ((c :: t).drop p.2)
      ≤ ((c :: t).drop p.1).length := runLen_le_left _ _
    _ ≤ (c :: t).length := by rw [List.length_drop]; omega
    _ = t.length + 1 := by simp

lemma matchTotalF_nil_nil (fuel : Nat) : matchTotalF fuel [] [] = 0 := by
  cases fuel with
  | zero => rfl
  | succ n => simp [matchTotalF, bestOver, allPairs]

lemma matchTotal_self (x : List Char) (hx : x ≠ []) : matchTotal x x = x.length := by
  obtain ⟨c, t, rfl⟩ := List.exists_cons_of_ne_nil hx
  have hlen : (c :: t).length = t.length + 1 := by simp
  simp only [matchTotal, hlen]
  have : t.length + 1 + (t.length + 1) = (t.length + 1 + t.length) + 1 := by omega
  rw [this]
  rw [matchTotalF]
  rw [bestOver_self (c :: t) (by simp), hlen]
  have hdrop : (c :: t).drop (0 + (t.length + 1)) = [] :=
    List.drop_of_length_le (by simp)
  simp only [List.take_zero, hdrop]
  rw [if_neg (by omega)]
  rw [matchTotalF_nil_nil]
  omega

lemma ratio_self_eq_one (x : List Char) (hx : x ≠ []) : ratio x x = 1 := by
  have hlen : x.length ≠ 0 := by
    cases x with
    | nil => exact absurd rfl hx
    | cons c t => simp
  simp only [ratio]
  rw [if_neg (by omega)]
  rw [matchTotal_self x hx]
  have h2 : ((2 * x.length : Nat) : Rat) = ((x.length + x.length : Nat) : Rat) := by
    norm_cast
    omega
  rw [h2]
  have hne : ((x.length + x.length : Nat) : Rat) ≠ 0 := by
    exact_mod_cast (by omega : x.length + x.length ≠ 0)
  exact div_self hne

lemma data_ne_nil_of_ne_empty {t : String} (h : t ≠ "") : t.data ≠ [] := by
  intro hd
  apply h
  cases t with
  | mk d =>
    simp only [String.data] at hd
    subst hd
    rfl

lemma ratio_concrete (a b : List Char) (m n : Nat) (hm : matchTotal a b = m)
    (hn : a.length + b.length = n) (h0 : n ≠ 0) :
    ratio a b = ((2 * m : Nat) : Rat) / ((n : Nat) : Rat) := by
  rw [ratio, hn, hm, if_neg h0]

lemma score_match_eval (t : String) (mt ma : Option String) (m n : Nat)
    (hguard : (!(pyTruthyStr mt) && !(pyTruthyStr ma)) = false)
    (hm : matchTotal (casefold t).data
      (casefold (pyStrip (stringJoinSpace (pyFilterTruthy [ma, mt])))).data = m)
    (hn : (casefold t).data.length +
      (casefold (pyStrip (stringJoinSpace (pyFilterTruthy [ma, mt])))).data.length = n)
    (h0 : n ≠ 0) :
    score_match t mt ma = ((2 * m : Nat) : Rat) / ((n : Nat) : Rat) := by
  simp only [score_match, hguard, Bool.false_eq_true, if_false]
  exact ratio_concrete _ _ m n hm hn h0

/-- Claim C4 counterexample: score_match of a string against itself is not
always 1.  At the empty string the falsiness guard returns 0, and at a title
with leading whitespace the candidate side is stripped while the source side
is not, so the ratio is 2/3. -/
theorem c4_counterexample :
    score_match "" (some "") none ≠ 1 ∧ score_match " a" (some " a") none ≠ 1 := by
  constructor
  · have h : score_match "" (some "") none = 0 := by
      simp [score_match, pyTruthyStr]
    rw [h]
    norm_num
  · have h : score_match " a" (some " a") none = ((2 * 1 : Nat) : Rat) / ((3 : Nat) : Rat) :=
      score_match_eval " a" (some " a") none 1 3 (by decide) (by decide) (by decide) (by decide)
    rw [h]
    norm_num

/-- Claim C4 (amended): for every nonempty string t that carries no leading
or trailing whitespace, score_match t (some t) none = 1: the candidate equals
the casefolded source and identical sequences get ratio 1.0. -/
theorem c4_score_self_eq_one (t : String) (h1 : t ≠ "") (h2 : pyStrip t = t) :
    score_match t (some t) none = 1 := by
  have hbeq : (t == "") = false := by
    simp [h1]
  have hguard : (!(pyTruthyStr (some t)) && !(pyTruthyStr none)) = false := by
    simp [pyTruthyStr, hbeq]
  have hfilter : pyFilterTruthy [none, some t] = [t] := by
    simp [pyFilterTruthy, hbeq]
  have hjoin : stringJoinSpace [t] = t := by
    simp only [stringJoinSpace, List.map_cons, List.map_nil, joinWords]
  simp only [score_match, hguard, Bool.false_eq_true, if_false, hfilter, hjoin, h2]
  apply ratio_self_eq_one
  have hdata : (casefold t).data = t.data.map lowerChar := rfl
  rw [hdata]
  simp only [ne_eq, List.map_eq_nil_iff]
  exact data_ne_nil_of_ne_empty h1

/-- Witness for claim C4 (amended) at the concrete title "ab". -/
theorem c4_witness :
    ("ab" : String) ≠ "" ∧ pyStrip "ab" = "ab" ∧ score_match "ab" (some "ab") none = 1 :=
  ⟨by decide, by decide, c4_score_self_eq_one "ab" (by decide) (by decide)⟩

/-- Claim C9: score_match treats empty candidate fields exactly like absent
ones: with an empty title and empty-or-absent artist the guard returns 0 for
every source title (the empty string included), and an empty string in
either position contributes nothing, not even the join separator, to the
compared candidate string. -/
theorem c9_empty_fields (t : String) :
    score_match t (some "") (some "") = 0 ∧
    score_match t (some "") none = 0 ∧
    ∀ o : Option String,
      pyFilterTruthy [some "", o] = pyFilterTruthy [none, o] ∧
      pyFilterTruthy [o, some ""] = pyFilterTruthy [o, none] := by
  refine ⟨?_, ?_, ?_⟩
  · simp [score_match, pyTruthyStr]
  · simp [score_match, pyTruthyStr]
  · intro o
    cases o <;> simp [pyFilterTruthy, List.filter]

/-- Claim C2: when the HTTP fetch for a query fails (transport failure or
non-success status, both surfacing as the caught exception), search_track
returns an outcome carrying the failure description in error, absent
candidate fields, score 0 and the originally-constructed search URL; and on
every path whatsoever, a set error implies absent candidate fields and
score 0. -/
theorem c2_transport_error (urljoin : String → String → String)
    (httpGet : String → Except String Soup) (q : String) :
    (∀ e : String, httpGet (searchUrl q) = Except.error e →
      (search_track urljoin httpGet q).error = some e ∧
      (search_track urljoin httpGet q).match_title = none ∧
      (search_track urljoin httpGet q).match_artist = none ∧
      (search_track urljoin httpGet q).match_url = none ∧
      (search_track urljoin httpGet q).score = 0 ∧
      (search_track urljoin httpGet q).search_url = searchUrl q) ∧
    ((search_track urljoin httpGet q).error ≠ none →
      (search_track urljoin httpGet q).match_title = none ∧
      (search_track urljoin httpGet q).match_artist = none ∧
      (search_track urljoin httpGet q).match_url = none ∧
      (search_track urljoin httpGet q).score = 0) := by
  constructor
  · intro e he
    simp [search_track, he]
  · intro herr
    cases hcall : httpGet (searchUrl q) with
    | error e => simp [search_track, hcall]
    | ok soup =>
      cases hsr : soup.firstSearchResult with
      | none =>
        exfalso
        apply herr
        simp [search_track, hcall, hsr]
      | some first =>
        exfalso
        apply herr
        simp [search_track, hcall, hsr]

/-- Witness for claim C2: a fetch double that always fails with message
"boom". -/
theorem c2_witness :
    ((search_track (fun b h => b ++ h) (fun _ => Except.error "boom") "q").error = some "boom" ∧
      (search_track (fun b h => b ++ h) (fun _ => Except.error "boom") "q").match_title = none ∧
      (search_track (fun b h => b ++ h) (fun _ => Except.error "boom") "q").match_artist = none ∧
      (search_track (fun b h => b ++ h) (fun _ => Except.error "boom") "q").match_url = none ∧
      (search_track (fun b h => b ++ h) (fun _ => Except.error "boom") "q").score = 0 ∧
      (search_track (fun b h => b ++ h) (fun _ => Except.error "boom") "q").search_url = searchUrl "q") ∧
    ((search_track (fun b h => b ++ h) (fun _ => Except.error "boom") "q").match_title = none ∧
      (search_track (fun b h => b ++ h) (fun _ => Except.error "boom") "q").match_artist = none ∧
      (search_track (fun b h => b ++ h) (fun _ => Except.error "boom") "q").match_url = none ∧
      (search_track (fun b h => b ++ h) (fun _ => Except.error "boom") "q").score = 0) :=
  ⟨(c2_transport_error (fun b h => b ++ h) (fun _ => Except.error "boom") "q").1 "boom" rfl,
   (c2_transport_error (fun b h => b ++ h) (fun _ => Except.error "boom") "q").2
     (by simp [search_track])⟩

/-- Claim C7: a successful fetch whose parsed document has no
li.searchresult element yields an outcome with all candidate fields absent
and no error. -/
theorem c7_no_results (urljoin : String → String → String)
    (httpGet : String → Except String Soup) (q : String) (soup : Soup)
    (hok : httpGet (searchUrl q) = Except.ok soup)
    (hempty : soup.firstSearchResult = none) :
    (search_track urljoin httpGet q).match_title = none ∧
    (search_track urljoin httpGet q).match_artist = none ∧
    (search_track urljoin httpGet q).match_url = none ∧
    (search_track urljoin httpGet q).error = none := by
  simp [search_track, hok, hempty]

/-- Witness for claim C7: a fetch double returning a document with no search
result element. -/
theorem c7_witness :
    (search_track (fun b h => b ++ h) (fun _ => Except.ok ⟨none⟩) "q").match_title = none ∧
    (search_track (fun b h => b ++ h) (fun _ => Except.ok ⟨none⟩) "q").match_artist = none ∧
    (search_track (fun b h => b ++ h) (fun _ => Except.ok ⟨none⟩) "q").match_url = none ∧
    (search_track (fun b h => b ++ h) (fun _ => Except.ok ⟨none⟩) "q").error = none :=
  c7_no_results (fun b h => b ++ h) (fun _ => Except.ok ⟨none⟩) "q" ⟨none⟩ rfl rfl

/-- Claim C6 counterexample: a found result element with no anchor does not
yield an absent url; match_url is the search URL instead. -/
theorem c6_counterexample :
    (search_track (fun b h => b ++ h)
      (fun _ => Except.ok ⟨some ⟨none, none, none⟩⟩) "x").match_url ≠ none ∧
    (search_track (fun b h => b ++ h)
      (fun _ => Except.ok ⟨some ⟨none, none, none⟩⟩) "x").match_url = some (searchUrl "x") := by
  constructor <;> simp [search_track]

/-- Claim C6 (amended): when a result element is found, the heading and
subhead texts are carried over verbatim (absent when the element is missing)
and absence sets no error; the link target is resolved against the
marketplace base origin when a nonempty href is present, and match_url falls
back to the search URL (so it is never absent) when the anchor or its href
attribute is missing or the href is empty. -/
theorem c6_extraction (urljoin : String → String → String)
    (httpGet : String → Except String Soup) (q : String) (soup : Soup)
    (first : ResultElem)
    (hok : httpGet (searchUrl q) = Except.ok soup)
    (hfound : soup.firstSearchResult = some first) :
    (search_track urljoin httpGet q).error = none ∧
    (search_track urljoin httpGet q).match_title = first.heading ∧
    (search_track urljoin httpGet q).match_artist = first.subhead ∧
    (search_track urljoin httpGet q).match_url.isSome = true ∧
    (first.link.bind Link.href = none →
      (search_track urljoin httpGet q).match_url = some (searchUrl q)) ∧
    (∀ h : String, first.link.bind Link.href = some h → h ≠ "" →
      (search_track urljoin httpGet q).match_url =
        some (urljoin "https://bandcamp.com" h)) := by
  refine ⟨?_, ?_, ?_, ?_, ?_, ?_⟩
  · simp [search_track, hok, hfound]
  · simp [search_track, hok, hfound]
  · simp [search_track, hok, hfound]
  · simp only [search_track, hok, hfound]
    cases first.link.bind Link.href with
    | none => simp
    | some h => by_cases hh : h = "" <;> simp [hh]
  · intro hnone
    simp [search_track, hok, hfound, hnone]
  · intro h hsome hne
    simp [search_track, hok, hfound, hsome, hne]

/-- Witness for claim C6 (amended): a result element carrying a heading, a
subhead and an anchor with a nonempty href. -/
theorem c6_witness :
    (search_track (fun b h => b ++ h)
      (fun _ => Except.ok ⟨some ⟨some ⟨some "/track/t"⟩, some "T", some "A"⟩⟩) "q").error = none ∧
    (search_track (fun b h => b ++ h)
      (fun _ => Except.ok ⟨some ⟨some ⟨some "/track/t"⟩, some "T", some "A"⟩⟩) "q").match_title =
      (ResultElem.mk (some ⟨some "/track/t"⟩) (some "T") (some "A")).heading ∧
    (search_track (fun b h => b ++ h)
      (fun _ => Except.ok ⟨some ⟨some ⟨some "/track/t"⟩, some "T", some "A"⟩⟩) "q").match_artist =
      (ResultElem.mk (some ⟨some "/track/t"⟩) (some "T") (some "A")).subhead ∧
    (search_track (fun b h => b ++ h)
      (fun _ => Except.ok ⟨some ⟨some ⟨some "/track/t"⟩, some "T", some "A"⟩⟩) "q").match_url.isSome = true ∧
    (search_track (fun b h => b ++ h)
      (fun _ => Except.ok ⟨some ⟨some ⟨some "/track/t"⟩, some "T", some "A"⟩⟩) "q").match_url =
      some ((fun b h => b ++ h) "https://bandcamp.com" "/track/t") := by
  have h := c6_extraction (fun b h => b ++ h)
    (fun _ => Except.ok ⟨some ⟨some ⟨some "/track/t"⟩, some "T", some "A"⟩⟩) "q"
    ⟨some ⟨some ⟨some "/track/t"⟩, some "T", some "A"⟩⟩
    ⟨some ⟨some "/track/t"⟩, some "T", some "A"⟩ rfl rfl
  exact ⟨h.1, h.2.1, h.2.2.1, h.2.2.2.1, h.2.2.2.2.2 "/track/t" rfl (by decide)⟩

/-- Claim C1: the matched flag of an emitted result row is true exactly when
the search outcome carries no error, the candidate url is present, and the
row score (the outcome score: 0 without a candidate, the computed similarity
with one) is at least the caller-supplied threshold. -/
theorem c1_matched_iff (urljoin : String → String → String)
    (httpGet : String → Except String Soup) (threshold : Rat) (item : LikeItem) :
    (processItem urljoin httpGet threshold item).2 = true ↔
      ((bandcamp_search urljoin httpGet (dash_stripped item.title)).error = none ∧
       (Option.map BCMatch.url
         (bandcamp_search urljoin httpGet (dash_stripped item.title)).found).isSome = true ∧
       threshold ≤ (processItem urljoin httpGet threshold item).1.score) := by
  cases hcall : httpGet (searchUrl (dash_stripped item.title)) with
  | error e =>
    simp [processItem, bandcamp_search, hcall]
  | ok soup =>
    cases hsr : soup.firstSearchResult with
    | none =>
      simp [processItem, bandcamp_search, hcall, hsr]
    | some first =>
      simp only [processItem, bandcamp_search, hcall, hsr]
      by_cases hth :
          threshold ≤ score_match_main item.title (some
            { title := first.heading.getD ""
              artist := first.subhead.getD ""
              url := match first.link with
                     | some l =>
                       match l.href with
                       | some h => urljoin "https://bandcamp.com" h
                       | none => searchUrl (dash_stripped item.title)
                     | none => searchUrl (dash_stripped item.title) }) <;>
        simp [hth]

/-- Claim C8 helper: folding with single-row appends is a map. -/
lemma foldl_append_singleton_eq_map {α β : Type} (f : α → β) :
    ∀ (l : List α) (init : List β),
      l.foldl (fun acc x => acc ++ [f x]) init = init ++ l.map f := by
  intro l
  induction l with
  | nil => intro init; simp
  | cons x t ih => intro init; simp [ih]

/-- Claim C8: the pipeline emits exactly one row per filtered item, and the
row at every index is the row computed from the item at the same index, so
the output order is exactly the input order. -/
theorem c8_order_preserved (urljoin : String → String → String)
    (httpGet : String → Except String Soup) (threshold : Rat)
    (items : List LikeItem) :
    (runPipeline urljoin httpGet threshold items).length = items.length ∧
    ∀ i : Nat,
      (runPipeline urljoin httpGet threshold items)[i]? =
        (items[i]?).map (fun it => (processItem urljoin httpGet threshold it).1) := by
  have hmap : runPipeline urljoin httpGet threshold items =
      items.map (fun it => (processItem urljoin httpGet threshold it).1) := by
    simp [runPipeline, foldl_append_singleton_eq_map]
  constructor
  · rw [hmap, List.length_map]
  · intro i
    rw [hmap, List.getElem?_map]

/-- Claim C10: every like kept by filter_by_channels has a nonempty uploader
whose casefolded form is one of the casefolded channel names (a channel list
containing the empty string changes nothing, since an empty uploader is
always rejected by the truthiness test), and the kept likes form a sublist
of the input, preserving its order. -/
theorem c10_filter_by_channels (likes : List YouTubeLike) (channels : List String) :
    (∀ like ∈ filter_by_channels likes channels,
        like.uploader ≠ "" ∧ casefold like.uploader ∈ channels.map casefold) ∧
    (filter_by_channels likes channels).Sublist likes := by
  constructor
  · intro like hmem
    have h := List.mem_filter.mp hmem
    have hp := h.2
    simp only [Bool.and_eq_true, decide_eq_true_eq] at hp
    exact hp
  · exact List.filter_sublist _

/-- Witness for claim C10: uploader "Up" survives the filter for channels
["up", ""] and satisfies both conclusions. -/
theorem c10_witness :
    (YouTubeLike.mk "t" "Up" none).uploader ≠ "" ∧
    casefold (YouTubeLike.mk "t" "Up" none).uploader ∈ List.map casefold ["up", ""] :=
  (c10_filter_by_channels [YouTubeLike.mk "t" "Up" none] ["up", ""]).1
    (YouTubeLike.mk "t" "Up" none) (by decide)

lemma score_match_main_eval (t : String) (m : BCMatch) (mm n : Nat)
    (hm : matchTotal (casefold t).data
      (casefold (pyStrip (m.artist ++ " " ++ m.title))).data = mm)
    (hn : (casefold t).data.length +
      (casefold (pyStrip (m.artist ++ " " ++ m.title))).data.length = n)
    (h0 : n ≠ 0) :
    score_match_main t (some m) = ((2 * mm : Nat) : Rat) / ((n : Nat) : Rat) := by
  simp only [score_match_main]
  exact ratio_concrete _ _ mm n hm hn h0

set_option maxRecDepth 8000 in
/-- Claim C3: for source title "Aphex Twin - Flim" and the candidate with
title "Flim", artist "Aphex Twin" and a present url, the similarity of
"aphex twin - flim" against "aphex twin flim" is 15/16 = 0.9375, which
exceeds 0.9; consequently, running the pipeline item against a marketplace
double returning that candidate with threshold 0.75 emits a matched row. -/
theorem c3_aphex_twin_flim :
    score_match "Aphex Twin - Flim" (some "Flim") (some "Aphex Twin") > 9 / 10 ∧
    (processItem (fun _ h => h)
      (fun _ => Except.ok ⟨some ⟨some ⟨some "https://aphextwin.bandcamp.com/track/flim"⟩,
        some "Flim", some "Aphex Twin"⟩⟩)
      (3 / 4)
      ⟨"Aphex Twin - Flim", "Aphex Twin", some "https://www.youtube.com/watch?v=XW2E2Fnh52w"⟩).2
      = true := by
  constructor
  · have h : score_match "Aphex Twin - Flim" (some "Flim") (some "Aphex Twin") =
        ((2 * 15 : Nat) : Rat) / ((32 : Nat) : Rat) :=
      score_match_eval "Aphex Twin - Flim" (some "Flim") (some "Aphex Twin") 15 32
        (by decide) (by decide) (by decide) (by decide)
    rw [h]
    norm_num
  · have h : score_match_main "Aphex Twin - Flim"
        (some ⟨"Flim", "Aphex Twin", "https://aphextwin.bandcamp.com/track/flim"⟩) =
        ((2 * 15 : Nat) : Rat) / ((32 : Nat) : Rat) :=
      score_match_main_eval "Aphex Twin - Flim"
        ⟨"Flim", "Aphex Twin", "https://aphextwin.bandcamp.com/track/flim"⟩ 15 32
        (by decide) (by decide) (by decide)
    simp only [processItem, bandcamp_search]
    norm_num [h]

lemma dropWhile_head_false {p : Char → Bool} :
    ∀ {l : List Char} {c : Char} {rest : List Char},
      l.dropWhile p = c :: rest → p c = false := by
  intro l
  induction l with
  | nil => intro c rest h; simp at h
  | cons a t ih =>
    intro c rest h
    by_cases ha : p a
    · rw [List.dropWhile_cons_of_pos ha] at h
      exact ih h
    · rw [List.dropWhile_cons_of_neg ha] at h
      obtain ⟨rfl, -⟩ := List.cons.inj h
      exact Bool.of_not_eq_true ha

lemma dropWhile_nil_all {p : Char → Bool} :
    ∀ {l : List Char}, l.dropWhile p = [] → ∀ x ∈ l, p x = true := by
  intro l
  induction l with
  | nil => intro _ x hx; simp at hx
  | cons a t ih =>
    intro h x hx
    by_cases ha : p a
    · rw [List.dropWhile_cons_of_pos ha] at h
      rcases List.mem_cons.mp hx with rfl | hx
      · exact ha
      · exact ih h x hx
    · rw [List.dropWhile_cons_of_neg ha] at h
      simp at h

lemma stripTrail_nil : stripTrail [] = [] := rfl

lemma stripTrail_cons_notSp {c : Char} (hc : pySpace c = false) (X : List Char) :
    stripTrail (c :: X) = c :: stripTrail X := by
  simp only [stripTrail, List.reverse_cons, List.dropWhile_append]
  by_cases hX : (X.reverse.dropWhile pySpace).isEmpty
  · rw [if_pos hX]
    rw [List.isEmpty_iff] at hX
    rw [hX]
    simp [List.dropWhile_cons, hc]
  · rw [if_neg hX]
    simp

lemma stripTrail_append_word {w : List Char} (hw : ∀ x ∈ w, pySpace x = false) :
    ∀ X : List Char, stripTrail (w ++ X) = w ++ stripTrail X := by
  induction w with
  | nil => intro X; simp
  | cons c t ih =>
    intro X
    have hc : pySpace c = false := hw c (by simp)
    have ht : ∀ x ∈ t, pySpace x = false := fun x hx => hw x (by simp [hx])
    rw [List.cons_append, stripTrail_cons_notSp hc, ih ht]
    rfl

lemma stripTrail_cons_sp_ne {c : Char} (_hc : pySpace c = true) {X : List Char}
    (hX : stripTrail X ≠ []) : stripTrail (c :: X) = c :: stripTrail X := by
  simp only [stripTrail, List.reverse_cons, List.dropWhile_append]
  have hne : ¬ (X.reverse.dropWhile pySpace).isEmpty := by
    intro hemp
    apply hX
    rw [List.isEmpty_iff] at hemp
    simp [stripTrail, hemp]
  rw [if_neg hne]
  simp

lemma stripLead_cons_sp {c : Char} (hc : pySpace c = true) (X : List Char) :
    stripLead (c :: X) = stripLead X := by
  simp [stripLead, List.dropWhile_cons, hc]

lemma stripLead_cons_notSp {c : Char} (hc : pySpace c = false) (X : List Char) :
    stripLead (c :: X) = c :: X := by
  simp [stripLead, List.dropWhile_cons, hc]

lemma collapse_append_word {w : List Char} (hw : ∀ x ∈ w, pySpace x = false) :
    ∀ m : List Char, collapseRuns (w ++ m) = w ++ collapseRuns m := by
  induction w with
  | nil => intro m; simp
  | cons a t ih =>
    intro m
    have ha : pySpace a = false := hw a (by simp)
    have ht : ∀ x ∈ t, pySpace x = false := fun x hx => hw x (by simp [hx])
    have key : collapseRuns (a :: (t ++ m)) = a :: collapseRuns (t ++ m) := by
      cases htm : t ++ m with
      | nil => simp [collapseRuns, ha]
      | cons b r => simp [collapseRuns, ha]
    calc collapseRuns ((a :: t) ++ m) = collapseRuns (a :: (t ++ m)) := by rw [List.cons_append]
      _ = a :: collapseRuns (t ++ m) := key
      _ = a :: (t ++ collapseRuns m) := by rw [ih ht m]
      _ = (a :: t) ++ collapseRuns m := by rw [List.cons_append]

lemma collapse_space_head :
    ∀ (m : List Char) (s : Char), pySpace s = true → stripLead m ≠ [] →
      collapseRuns (s :: m) = ' ' :: collapseRuns (stripLead m) := by
  intro m
  induction m with
  | nil => intro s _ hne; exact absurd rfl hne
  | cons d r ih =>
    intro s hs hne
    by_cases hd : pySpace d = true
    · have : stripLead (d :: r) = stripLead r := stripLead_cons_sp hd r
      rw [this] at hne ⊢
      have h1 : collapseRuns (s :: d :: r) = collapseRuns (d :: r) := by
        simp [collapseRuns, hs, hd]
      rw [h1]
      exact ih d hd hne
    · have hd' : pySpace d = false := by
        exact Bool.of_not_eq_true hd
      rw [stripLead_cons_notSp hd' r]
      simp [collapseRuns, hs, hd']

lemma collapse_allSp :
    ∀ {m : List Char}, (∀ x ∈ m, pySpace x = true) →
      collapseRuns m = [] ∨ collapseRuns m = [' '] := by
  intro m
  induction m with
  | nil => intro _; left; rfl
  | cons a t ih =>
    intro h
    have ha : pySpace a = true := h a (by simp)
    have ht : ∀ x ∈ t, pySpace x = true := fun x hx => h x (by simp [hx])
    cases t with
    | nil =>
      right
      simp [collapseRuns, ha]
    | cons b r =>
      have hb : pySpace b = true := ht b (by simp)
      have : collapseRuns (a :: b :: r) = collapseRuns (b :: r) := by
        simp [collapseRuns, ha, hb]
      rw [this]
      exact ih ht

lemma collapse_head_notSp {c : Char} (hc : pySpace c = false) (X : List Char) :
    ∃ Y, collapseRuns (c :: X) = c :: Y := by
  cases X with
  | nil => exact ⟨[], by simp [collapseRuns, hc]⟩
  | cons d r => exact ⟨collapseRuns (d :: r), by simp [collapseRuns, hc]⟩

lemma joinWords_cons_head (c : Char) (tw : List Char) (ws : List (List Char)) :
    ∃ K, joinWords ((c :: tw) :: ws) = c :: K := by
  cases ws with
  | nil => exact ⟨tw, rfl⟩
  | cons w ws' => exact ⟨tw ++ ' ' :: joinWords (w :: ws'), rfl⟩

lemma strip_collapse_stripLead :
    ∀ l : List Char, pyStripL (collapseRuns l) = pyStripL (collapseRuns (stripLead l)) := by
  intro l
  induction l with
  | nil => rfl
  | cons c t ih =>
    by_cases hc : pySpace c = true
    · rw [stripLead_cons_sp hc t]
      have hstep : pyStripL (collapseRuns (c :: t)) = pyStripL (collapseRuns t) := by
        cases t with
        | nil =>
          simp [collapseRuns, hc, pyStripL, stripLead, stripTrail]
          decide
        | cons d r =>
          by_cases hd : pySpace d = true
          · simp [collapseRuns, hc, hd]
          · have hd' : pySpace d = false := Bool.of_not_eq_true hd
            have h1 : collapseRuns (c :: d :: r) = ' ' :: collapseRuns (d :: r) := by
              simp [collapseRuns, hc, hd']
            rw [h1]
            simp only [pyStripL]
            rw [stripLead_cons_sp (by decide) _]
      rw [hstep]
      exact ih
    · have hc' : pySpace c = false := Bool.of_not_eq_true hc
      rw [stripLead_cons_notSp hc' t]

lemma pySplitL_eq_nil {l : List Char} (h : l.dropWhile pySpace = []) :
    pySplitL l = [] := by
  conv_lhs => rw [pySplitL.eq_def]
  split
  · rfl
  · rename_i c rest heq
    rw [h] at heq
    exact absurd heq (by simp)

lemma pySplitL_eq_cons {l : List Char} {c : Char} {rest : List Char}
    (h : l.dropWhile pySpace = c :: rest) :
    pySplitL l =
      (c :: rest.takeWhile (fun d => !pySpace d)) ::
        pySplitL (rest.dropWhile (fun d => !pySpace d)) := by
  conv_lhs => rw [pySplitL.eq_def]
  split
  · rename_i heq
    rw [h] at heq
    exact absurd heq (by simp)
  · rename_i c' rest' heq
    rw [h] at heq
    obtain ⟨rfl, rfl⟩ := List.cons.inj heq
    rfl

lemma pyStripL_word_append {c : Char} (hc : pySpace c = false) {tw : List Char}
    (htw : ∀ x ∈ tw, pySpace x = false) (X : List Char) :
    pyStripL ((c :: tw) ++ X) = (c :: tw) ++ stripTrail X := by
  have hword : ∀ x ∈ c :: tw, pySpace x = false := by
    intro x hx
    rcases List.mem_cons.mp hx with rfl | hx
    · exact hc
    · exact htw x hx
  have hlead : stripLead ((c :: tw) ++ X) = (c :: tw) ++ X := by
    rw [List.cons_append]
    exact stripLead_cons_notSp hc _
  simp only [pyStripL, hlead]
  exact stripTrail_append_word hword X

lemma split_join_eq_collapse :
    ∀ (n : Nat) (l : List Char), l.length ≤ n →
      pyStripL (joinWords (pySplitL l)) = pyStripL (collapseRuns l) := by
  intro n
  induction n with
  | zero =>
    intro l hl
    have hnil : l = [] := List.eq_nil_of_length_eq_zero (Nat.le_zero.mp hl)
    subst hnil
    rw [pySplitL_eq_nil (by rfl)]
    rfl
  | succ n ih =>
    intro l hl
    cases hdrop : l.dropWhile pySpace with
    | nil =>
      rw [pySplitL_eq_nil hdrop]
      have hR : pyStripL (collapseRuns l) = [] := by
        rcases collapse_allSp (dropWhile_nil_all hdrop) with h | h <;> rw [h] <;> decide
      rw [hR]
      rfl
    | cons c rest =>
      have hc : pySpace c = false := dropWhile_head_false hdrop
      have htw : ∀ x ∈ rest.takeWhile (fun d => !pySpace d), pySpace x = false := by
        intro x hx
        have := List.mem_takeWhile_imp hx
        simpa using this
      have hword : ∀ x ∈ c :: rest.takeWhile (fun d => !pySpace d), pySpace x = false := by
        intro x hx
        rcases List.mem_cons.mp hx with rfl | hx
        · exact hc
        · exact htw x hx
      have hdecomp : c :: rest =
          (c :: rest.takeWhile (fun d => !pySpace d)) ++ rest.dropWhile (fun d => !pySpace d) := by
        rw [List.cons_append, List.takeWhile_append_dropWhile]
      have hR1 : pyStripL (collapseRuns l) =
          pyStripL ((c :: rest.takeWhile (fun d => !pySpace d)) ++
            collapseRuns (rest.dropWhile (fun d => !pySpace d))) := by
        rw [strip_collapse_stripLead l, show stripLead l = c :: rest from hdrop, hdecomp,
          collapse_append_word hword]
      have hR2 : pyStripL (collapseRuns l) =
          (c :: rest.takeWhile (fun d => !pySpace d)) ++
            stripTrail (collapseRuns (rest.dropWhile (fun d => !pySpace d))) := by
        rw [hR1, pyStripL_word_append hc htw]
      have hlen2 : (rest.dropWhile (fun d => !pySpace d)).length ≤ n := by
        have h1 : (l.dropWhile pySpace).length ≤ l.length := (List.dropWhile_sublist _).length_le
        rw [hdrop] at h1
        simp only [List.length_cons] at h1
        have h2 : (rest.dropWhile (fun d => !pySpace d)).length ≤ rest.length :=
          (List.dropWhile_sublist _).length_le
        omega
      have IH := ih (rest.dropWhile (fun d => !pySpace d)) hlen2
      rw [pySplitL_eq_cons hdrop]
      cases hdrop2 : (rest.dropWhile (fun d => !pySpace d)).dropWhile pySpace with
      | nil =>
        rw [pySplitL_eq_nil hdrop2]
        have hT : stripTrail (collapseRuns (rest.dropWhile (fun d => !pySpace d))) = [] := by
          rcases collapse_allSp (dropWhile_nil_all hdrop2) with h | h <;> rw [h] <;> decide
        rw [hR2, hT, List.append_nil]
        have hw' : pyStripL (c :: rest.takeWhile (fun d => !pySpace d)) =
            c :: rest.takeWhile (fun d => !pySpace d) := by
          have h := pyStripL_word_append hc htw []
          rw [List.append_nil, stripTrail_nil, List.append_nil] at h
          exact h
        rw [show joinWords [c :: rest.takeWhile (fun d => !pySpace d)] =
          c :: rest.takeWhile (fun d => !pySpace d) from rfl, hw']
      | cons c₂ rest₃ =>
        have hc₂ : pySpace c₂ = false := dropWhile_head_false hdrop2
        obtain ⟨s, r₂, hr⟩ : ∃ s r₂, rest.dropWhile (fun d => !pySpace d) = s :: r₂ := by
          cases hrr : rest.dropWhile (fun d => !pySpace d) with
          | nil => rw [hrr] at hdrop2; simp at hdrop2
          | cons s r₂ => exact ⟨s, r₂, rfl⟩
        have hs : pySpace s = true := by
          have := dropWhile_head_false hr
          simpa using this
        have hlead_r₂ : stripLead r₂ = c₂ :: rest₃ := by
          have : stripLead (s :: r₂) = stripLead r₂ := stripLead_cons_sp hs r₂
          rw [hr] at hdrop2
          rw [show (s :: r₂).dropWhile pySpace = stripLead (s :: r₂) from rfl, this] at hdrop2
          exact hdrop2
        have hcol : collapseRuns (rest.dropWhile (fun d => !pySpace d)) =
            ' ' :: collapseRuns (c₂ :: rest₃) := by
          rw [hr, collapse_space_head r₂ s hs (by rw [hlead_r₂]; simp), hlead_r₂]
        obtain ⟨Y, hY⟩ := collapse_head_notSp hc₂ rest₃
        have htail_ne : stripTrail (c₂ :: Y) ≠ [] := by
          rw [stripTrail_cons_notSp hc₂ Y]
          simp
        have hTrel : stripTrail (collapseRuns (rest.dropWhile (fun d => !pySpace d))) =
            ' ' :: pyStripL (collapseRuns (rest.dropWhile (fun d => !pySpace d))) := by
          rw [hcol, hY, stripTrail_cons_sp_ne (by decide) htail_ne]
          have hlead2 : stripLead (' ' :: c₂ :: Y) = c₂ :: Y := by
            rw [stripLead_cons_sp (by decide), stripLead_cons_notSp hc₂]
          simp only [pyStripL, hcol, hY, hlead2]
        rw [pySplitL_eq_cons hdrop2]
        obtain ⟨K, hK⟩ := joinWords_cons_head c₂ (rest₃.takeWhile (fun d => !pySpace d))
          (pySplitL (rest₃.dropWhile (fun d => !pySpace d)))
        have hjoin2 : joinWords ((c :: rest.takeWhile (fun d => !pySpace d)) ::
            (c₂ :: rest₃.takeWhile (fun d => !pySpace d)) ::
              pySplitL (rest₃.dropWhile (fun d => !pySpace d))) =
            (c :: rest.takeWhile (fun d => !pySpace d)) ++
              ' ' :: joinWords ((c₂ :: rest₃.takeWhile (fun d => !pySpace d)) ::
                pySplitL (rest₃.dropWhile (fun d => !pySpace d))) := rfl
        rw [hjoin2]
        have hLsplit : pyStripL ((c :: rest.takeWhile (fun d => !pySpace d)) ++
            ' ' :: joinWords ((c₂ :: rest₃.takeWhile (fun d => !pySpace d)) ::
              pySplitL (rest₃.dropWhile (fun d => !pySpace d)))) =
            (c :: rest.takeWhile (fun d => !pySpace d)) ++
              stripTrail (' ' :: joinWords ((c₂ :: rest₃.takeWhile (fun d => !pySpace d)) ::
                pySplitL (rest₃.dropWhile (fun d => !pySpace d)))) :=
          pyStripL_word_append hc htw _
        rw [hLsplit]
        have hJtail_ne : stripTrail (joinWords ((c₂ :: rest₃.takeWhile (fun d => !pySpace d)) ::
            pySplitL (rest₃.dropWhile (fun d => !pySpace d)))) ≠ [] := by
          rw [hK, stripTrail_cons_notSp hc₂]
          simp
        have hJ : stripTrail (' ' :: joinWords ((c₂ :: rest₃.takeWhile (fun d => !pySpace d)) ::
            pySplitL (rest₃.dropWhile (fun d => !pySpace d)))) =
            ' ' :: stripTrail (joinWords ((c₂ :: rest₃.takeWhile (fun d => !pySpace d)) ::
              pySplitL (rest₃.dropWhile (fun d => !pySpace d)))) :=
          stripTrail_cons_sp_ne (by decide) hJtail_ne
        rw [hJ]
        have hJstrip : stripTrail (joinWords ((c₂ :: rest₃.takeWhile (fun d => !pySpace d)) ::
            pySplitL (rest₃.dropWhile (fun d => !pySpace d)))) =
            pyStripL (joinWords (pySplitL (rest.dropWhile (fun d => !pySpace d)))) := by
          rw [pySplitL_eq_cons hdrop2]
          simp only [pyStripL, hK]
          rw [stripLead_cons_notSp hc₂]
        rw [hJstrip, IH, hR2, hTrel]

/-- Claim C5 counterexample: the source sanitize does not equal the spec
reference.  On "a-b" the code replaces the hyphen by a space, giving "a b",
while the reference removes it, giving "ab"; on "(a]" the code regex matches
the opening parenthesis up to the first closing bracket of any type and
erases everything, while under the reference reading no matching-pair
bracketed fragment exists and the letter a survives. -/
theorem c5_counterexample :
    sanitize_search_query "a-b" ≠ sanitizeReference "a-b" ∧
    sanitize_search_query "(a]" ≠ sanitizeReference "(a]" := by
  have h1 := split_join_eq_collapse
    (noiseToSpace (sub_brackets ("a-b").data)).length
    (noiseToSpace (sub_brackets ("a-b").data)) le_rfl
  have h2 := split_join_eq_collapse
    (noiseToSpace (sub_brackets ("(a]").data)).length
    (noiseToSpace (sub_brackets ("(a]").data)) le_rfl
  constructor
  · simp only [sanitize_search_query]
    rw [h1]
    decide
  · simp only [sanitize_search_query]
    rw [h2]
    decide

/-- Claim C5 (amended): sanitize equals the three-step reference definition
with the two removal steps read as replacement by a single space and a
bracketed fragment running from an opening bracket to the first closing
bracket of any type: the split-and-join of the source is exactly a collapse
of whitespace runs to single spaces followed by a trim. -/
theorem c5_sanitize_eq_reference (s : String) :
    sanitize_search_query s = sanitizeReferenceAmended s := by
  simp only [sanitize_search_query, sanitizeReferenceAmended]
  exact congrArg String.mk (split_join_eq_collapse _ _ le_rfl)
